import Mathlib

/-! Mandelbrot visualiser: host-side control loop.

A shallow embedding of the host program `src/main.cpp`: the parameter store
(the `g...` globals), the keyboard handler `Input`, the Julia-constant
animation `Animate`, the uniform upload `PreDraw`, the depth feedback
`find_ranges` and one iteration of `MainLoop`.

Modelling conventions.
* `float` globals and depth values are exact rationals (`ℚ`): only
  comparisons, additions and products by constants are performed on them.
* `int` is `ℤ`.  Signed overflow is undefined in C++, so the model describes
  executions in which no `int` intermediate leaves the `int` range
  (`gMaxIterations` stays within `[14, 501]`, and `find_ranges` computes at
  most `9 * size`, about `1.05e7` for the `1080 * 1080` buffer).
* `Uint64 gLastTime` is a natural number with explicit reduction modulo
  `2 ^ 64`, as unsigned arithmetic wraps.
* An out-of-bounds vector read has no defined result: `Option.none`.
* The GPU (shader, `Draw`, buffer swap) is external.  What the host reads
  from it, the depth read-back of `glReadPixels`, is a parameter of the frame;
  so are the pending SDL events, the keyboard state and `SDL_GetTicks()`.
-/

namespace Mandelbrot

/-! ## Data model -/

/-- A `glm::vec4`. -/
structure Vec4 where
  x : ℚ
  y : ℚ
  z : ℚ
  w : ℚ
  deriving DecidableEq, Repr

/-- Key symbols that `Input` distinguishes in `e.key.keysym.sym`. -/
inductive Keycode where
  | r
  | p
  | j
  | m
  | other
  deriving DecidableEq, Repr

/-- An `SDL_Event` as far as `Input` looks at it: its type and, for a key
press, the key symbol. -/
inductive Event where
  | quit
  | keydown (sym : Keycode)
  | other
  deriving DecidableEq, Repr

/-- The entries of `SDL_GetKeyboardState` that `Input` reads. -/
structure KeyState where
  up : Bool
  down : Bool
  left : Bool
  right : Bool
  lshift : Bool
  lctrl : Bool
  deriving DecidableEq, Repr

/-- The globals of `main.cpp` that carry program logic (lines 33-59). -/
structure State where
  gLastTime : ℕ
  gQuit : Bool
  gCenterX : ℚ
  gCenterY : ℚ
  gZoom : ℚ
  gConstantReal : ℚ
  gConstantImag : ℚ
  gPixelData : List ℚ
  gRanges : Vec4
  gMaxIterations : ℤ
  gPause : Bool
  gReverse : Bool
  gMandelbrot : Bool
  deriving DecidableEq

/-- Screen width, `gScreenWidth`. -/
def gScreenWidth : ℕ := 1080

/-- Screen height, `gScreenHeight`. -/
def gScreenHeight : ℕ := 1080

/-- The globals as their static initialisers leave them. -/
def initGlobals : State where
  gLastTime := 0
  gQuit := false
  gCenterX := 0
  gCenterY := 0
  gZoom := 1
  gConstantReal := 1 / 10
  gConstantImag := 1 / 2
  gPixelData := List.replicate (gScreenWidth * gScreenHeight) 0
  gRanges := ⟨1 / 10000, 33333 / 100000, 66667 / 100000, 1⟩
  gMaxIterations := 15
  gPause := false
  gReverse := false
  gMandelbrot := true

/-- The one logical effect of `InitializeProgram`: `gLastTime = SDL_GetTicks()`. -/
def InitializeProgram (tick : ℕ) (s : State) : State :=
  { s with gLastTime := tick % 2 ^ 64 }

/-! ## `find_ranges` -/

/-- The call `std::sort(in.begin(), in.end())`: the ascending rearrangement of
the buffer. -/
def sortBuffer (buf : List ℚ) : List ℚ :=
  buf.insertionSort (· ≤ ·)

/-- The loop `while (in[min] == 0.0f) min++`, run on the part of the buffer
from index `min` on.  It stops with the first index holding a non-zero value;
running off the end of the buffer is an out-of-bounds read. -/
def zeroScan : List ℚ → ℕ → Option ℕ
  | [], _ => none
  | v :: rest, min => if v = 0 then zeroScan rest (min + 1) else some min

/-- The four `int` indices read at line 235, for a buffer of `size` entries
and the scan result `min`: `len = size - min`, with truncating division. -/
def rangeIndices (size min : ℤ) : ℤ × ℤ × ℤ × ℤ :=
  let len := size - min
  (min, min + (len * 4).tdiv 5 - 1, min + (len * 9).tdiv 10 - 1, size - 1)

/-- The read `in[i]` for an `int` index: defined inside the buffer only. -/
def readAt (buf : List ℚ) (i : ℤ) : Option ℚ :=
  if 0 ≤ i then buf[i.toNat]? else none

/-- The function `find_ranges` (lines 222-239).  The second component is the
buffer as the call leaves it (sorted in place); the first is the returned
vector, when every read is inside the buffer. -/
def find_ranges (inp : List ℚ) : Option Vec4 × List ℚ :=
  let s := sortBuffer inp
  let result := do
    let min ← zeroScan s 0
    let idx := rangeIndices s.length min
    let x ← readAt s idx.1
    let y ← readAt s idx.2.1
    let z ← readAt s idx.2.2.1
    let w ← readAt s idx.2.2.2
    pure (Vec4.mk x y z w)
  (result, s)

/-! ## `Input` -/

/-- The body of the `SDL_PollEvent` loop for one event (lines 380-412): four
independent `if`s on the key symbol, each reading the globals as the previous
one left them. -/
def handleEvent (s : State) (e : Event) : State :=
  let s := if e = Event.quit then { s with gQuit := true } else s
  match e with
  | Event.keydown sym =>
    let s := if sym = Keycode.r then
        { s with gZoom := 1, gCenterY := 0, gCenterX := 0, gMaxIterations := 15 }
      else s
    let s := if sym = Keycode.p ∧ s.gMandelbrot = false then
        { s with gPause := !s.gPause }
      else s
    let s := if sym = Keycode.j ∧ s.gMandelbrot = true then
        { s with gMandelbrot := false, gZoom := 4 / 5, gCenterY := 0, gCenterX := 0,
                 gMaxIterations := 300 }
      else s
    let s := if sym = Keycode.m ∧ s.gMandelbrot = false then
        { s with gMandelbrot := true, gZoom := 1, gCenterY := 0, gCenterX := 0,
                 gMaxIterations := 15 }
      else s
    s
  | _ => s

/-- The loop `while (SDL_PollEvent(&e) != 0)` over the pending events. -/
def pollEvents (evs : List Event) (s : State) : State :=
  evs.foldl handleEvent s

/-- Block of `state[SDL_SCANCODE_UP]` (lines 419-425). -/
def scancodeUp (s : State) : State :=
  let s := { s with gCenterY := s.gCenterY + 1 / 400 * s.gZoom }
  if s.gCenterY > 1 then { s with gCenterY := 1 } else s

/-- Block of `state[SDL_SCANCODE_DOWN]` (lines 426-432). -/
def scancodeDown (s : State) : State :=
  let s := { s with gCenterY := s.gCenterY - 1 / 400 * s.gZoom }
  if s.gCenterY < -1 then { s with gCenterY := -1 } else s

/-- Block of `state[SDL_SCANCODE_LEFT]` (lines 433-439). -/
def scancodeLeft (s : State) : State :=
  let s := { s with gCenterX := s.gCenterX - 1 / 400 * s.gZoom }
  if s.gCenterX < -1 then { s with gCenterX := -1 } else s

/-- Block of `state[SDL_SCANCODE_RIGHT]` (lines 440-446). -/
def scancodeRight (s : State) : State :=
  let s := { s with gCenterX := s.gCenterX + 1 / 400 * s.gZoom }
  if s.gCenterX > 1 then { s with gCenterX := 1 } else s

/-- Block of `state[SDL_SCANCODE_LSHIFT]` (lines 448-462): zoom out. -/
def scancodeLShift (s : State) : State :=
  let s := { s with gZoom := s.gZoom * (26 / 25) }
  let s := if s.gMandelbrot = true then { s with gMaxIterations := s.gMaxIterations - 1 } else s
  let s := if s.gZoom > 1 then { s with gZoom := 1 } else s
  let s := if s.gMaxIterations < 15 then { s with gMaxIterations := 15 } else s
  s

/-- Block of `state[SDL_SCANCODE_LCTRL]` (lines 463-477): zoom in. -/
def scancodeLCtrl (s : State) : State :=
  let s := { s with gZoom := s.gZoom * (39 / 40) }
  let s := if s.gMandelbrot = true then { s with gMaxIterations := s.gMaxIterations + 1 } else s
  let s := if s.gZoom < 1 / 200000 then { s with gZoom := 1 / 200000 } else s
  let s := if s.gMaxIterations > 500 then { s with gMaxIterations := 500 } else s
  s

/-- The keyboard-state half of `Input` (lines 418-477), in source order. -/
def applyKeys (keys : KeyState) (s : State) : State :=
  let s := if keys.up = true then scancodeUp s else s
  let s := if keys.down = true then scancodeDown s else s
  let s := if keys.left = true then scancodeLeft s else s
  let s := if keys.right = true then scancodeRight s else s
  let s := if keys.lshift = true then scancodeLShift s else s
  let s := if keys.lctrl = true then scancodeLCtrl s else s
  s

/-- The function `Input` (lines 375-478): drain the event queue, then apply
the held keys. -/
def Input (evs : List Event) (keys : KeyState) (s : State) : State :=
  applyKeys keys (pollEvents evs s)

/-- No key held. -/
def noKeys : KeyState := ⟨false, false, false, false, false, false⟩

/-! ## `PreDraw`, `Animate`, `MainLoop` -/

/-- The shader uniforms set by `PreDraw` (lines 323-334). -/
structure Uniforms where
  zoom : ℚ
  center_x : ℚ
  center_y : ℚ
  width : ℚ
  height : ℚ
  max_iterations : ℤ
  mandelbrot : Bool
  constant_x : ℚ
  constant_y : ℚ
  color_ranges : Vec4
  deriving DecidableEq

/-- The function `PreDraw` (lines 309-335): the values handed to the shader.
It changes no global. -/
def PreDraw (s : State) : Uniforms where
  zoom := s.gZoom
  center_x := s.gCenterX
  center_y := s.gCenterY
  width := gScreenWidth
  height := gScreenHeight
  max_iterations := s.gMaxIterations
  mandelbrot := s.gMandelbrot
  constant_x := s.gConstantReal
  constant_y := s.gConstantImag
  color_ranges := s.gRanges

/-- The function `Animate` (lines 338-352); `tick` is `SDL_GetTicks()`.  The
difference `SDL_GetTicks() - gLastTime` and the sum `gLastTime += 125` are
`Uint64` operations. -/
def Animate (tick : ℕ) (s : State) : State :=
  if ((tick : ℤ) - (s.gLastTime : ℤ)) % 2 ^ 64 > 125 ∧ s.gMandelbrot = false then
    let s := { s with gLastTime := (s.gLastTime + 125) % 2 ^ 64 }
    let s := { s with gConstantImag := s.gConstantImag - 3 / 2000 }
    let s := { s with gConstantReal := s.gConstantReal - 3 / 2000 }
    if s.gConstantImag ≤ -(3 / 4) then
      { s with gConstantImag := 9 / 20, gConstantReal := 11 / 20 }
    else s
  else s

/-- What one iteration of the `MainLoop` body takes from outside the host
program. -/
structure FrameInput where
  events : List Event
  keys : KeyState
  tick : ℕ
  depth : List ℚ

/-- Lines 494-497: `if (!gPause) Animate();`. -/
def animateStep (tick : ℕ) (s : State) : State :=
  if s.gPause = false then Animate tick s else s

/-- The globals after the first three statements of the loop body
(`Input(); PreDraw(); if (!gPause) Animate();`). -/
def afterAnimate (i : FrameInput) (s : State) : State :=
  animateStep i.tick (Input i.events i.keys s)

/-- The uniforms uploaded in the frame: `PreDraw()` runs right after `Input()`
(lines 490-492). -/
def uploaded (i : FrameInput) (s : State) : Uniforms :=
  PreDraw (Input i.events i.keys s)

/-- One iteration of the `MainLoop` body (lines 490-504): the uniforms it
uploads and the globals it leaves.  `Draw` and the buffer swap touch no global;
`glReadPixels` overwrites `gPixelData` with the read-back `i.depth`; then
`gRanges = find_ranges(gPixelData)`.  No result when `find_ranges` reads
outside the buffer. -/
def frame (i : FrameInput) (s : State) : Option (Uniforms × State) :=
  let s1 := Input i.events i.keys s
  let u := PreDraw s1
  let s2 := if s1.gPause = false then Animate i.tick s1 else s1
  let s3 := { s2 with gPixelData := i.depth }
  match find_ranges s3.gPixelData with
  | (some r, sorted) => some (u, { s3 with gPixelData := sorted, gRanges := r })
  | (none, _) => none

/-- The loop `while (!gQuit)` of `MainLoop` over the given per-frame inputs. -/
def MainLoop : List FrameInput → State → Option State
  | [], s => some s
  | i :: rest, s =>
    if s.gQuit = true then some s
    else match frame i s with
      | some (_, s') => MainLoop rest s'
      | none => none

/-! ## Reachability -/

/-- States reached from the initial globals by calls of `Input` alone. -/
inductive InputReachable : State → Prop where
  | init : InputReachable initGlobals
  | input (evs : List Event) (keys : KeyState) {s : State} :
      InputReachable s → InputReachable (Input evs keys s)

/-- States the program can be in: from the initial globals, through
`InitializeProgram`, calls of `Input` and `Animate` with any arguments, and
whole frames. -/
inductive Reachable : State → Prop where
  | init : Reachable initGlobals
  | boot (tick : ℕ) {s : State} : Reachable s → Reachable (InitializeProgram tick s)
  | input (evs : List Event) (keys : KeyState) {s : State} :
      Reachable s → Reachable (Input evs keys s)
  | animate (tick : ℕ) {s : State} : Reachable s → Reachable (Animate tick s)
  | loopBody (i : FrameInput) {s s' : State} {u : Uniforms} :
      Reachable s → frame i s = some (u, s') → Reachable s'

/-- The clamping bounds of the navigation parameters. -/
def Clamped (s : State) : Prop :=
  1 / 200000 ≤ s.gZoom ∧ s.gZoom ≤ 1 ∧
  -1 ≤ s.gCenterX ∧ s.gCenterX ≤ 1 ∧
  -1 ≤ s.gCenterY ∧ s.gCenterY ≤ 1 ∧
  15 ≤ s.gMaxIterations ∧ s.gMaxIterations ≤ 500

/-- Only left control held. -/
def ctrlOnly : KeyState := { noKeys with lctrl := true }

/-- Only left shift held. -/
def shiftOnly : KeyState := { noKeys with lshift := true }

/-- A key press of one of the four command keys `r`, `p`, `j`, `m`. -/
def Event.isCommand : Event → Bool
  | Event.keydown Keycode.other => false
  | Event.keydown _ => true
  | _ => false

/-- The state `t` differs from `s` at most in the navigation parameters
(centre, zoom, iteration count). -/
def NavOnly (s t : State) : Prop :=
  t = { s with gCenterX := t.gCenterX, gCenterY := t.gCenterY, gZoom := t.gZoom,
               gMaxIterations := t.gMaxIterations }

/-- The band in which the Julia constants move: the imaginary part in
`(-0.75, 0.5]`, the real part at a fixed offset `-0.4` or `0.1` from it. -/
def JuliaBand (s : State) : Prop :=
  -(3 / 4) < s.gConstantImag ∧ s.gConstantImag ≤ 1 / 2 ∧
  (s.gConstantReal - s.gConstantImag = -(2 / 5) ∨ s.gConstantReal - s.gConstantImag = 1 / 10)

/-! ## Key events and clamping -/

theorem input_single_event (e : Event) (s : State) :
    Input [e] noKeys s = handleEvent s e := by
  simp [Input, pollEvents, applyKeys, noKeys]

theorem clamped_handleEvent (s : State) (e : Event) (h : Clamped s) :
    Clamped (handleEvent s e) := by
  rcases s with ⟨lt, q, cx, cy, z, cr, ci, px, rg, mi, pa, rv, mb⟩
  unfold Clamped at *
  rcases e with _ | sym | _
  · simpa [handleEvent] using h
  · cases sym <;> cases mb <;> simp [handleEvent] at h ⊢ <;> (try exact h) <;> norm_num
  · simpa [handleEvent] using h

theorem clamped_pollEvents (evs : List Event) (s : State) (h : Clamped s) :
    Clamped (pollEvents evs s) := by
  induction evs generalizing s with
  | nil => simpa [pollEvents] using h
  | cons e rest ih =>
    have := ih (handleEvent s e) (clamped_handleEvent s e h)
    simpa [pollEvents] using this

theorem clamped_scancodeUp (s : State) (h : Clamped s) : Clamped (scancodeUp s) := by
  rcases s with ⟨lt, q, cx, cy, z, cr, ci, px, rg, mi, pa, rv, mb⟩
  simp only [Clamped, scancodeUp] at *
  obtain ⟨h1, h2, h3, h4, h5, h6, h7, h8⟩ := h
  split_ifs with hc
  · exact ⟨h1, h2, h3, h4, by norm_num, le_refl _, h7, h8⟩
  · simp only [not_lt] at hc
    exact ⟨h1, h2, h3, h4, by linarith, hc, h7, h8⟩

theorem clamped_scancodeDown (s : State) (h : Clamped s) : Clamped (scancodeDown s) := by
  rcases s with ⟨lt, q, cx, cy, z, cr, ci, px, rg, mi, pa, rv, mb⟩
  simp only [Clamped, scancodeDown] at *
  obtain ⟨h1, h2, h3, h4, h5, h6, h7, h8⟩ := h
  split_ifs with hc
  · exact ⟨h1, h2, h3, h4, le_refl _, by norm_num, h7, h8⟩
  · simp only [not_lt] at hc
    exact ⟨h1, h2, h3, h4, hc, by linarith, h7, h8⟩

theorem clamped_scancodeLeft (s : State) (h : Clamped s) : Clamped (scancodeLeft s) := by
  rcases s with ⟨lt, q, cx, cy, z, cr, ci, px, rg, mi, pa, rv, mb⟩
  simp only [Clamped, scancodeLeft] at *
  obtain ⟨h1, h2, h3, h4, h5, h6, h7, h8⟩ := h
  split_ifs with hc
  · exact ⟨h1, h2, le_refl _, by norm_num, h5, h6, h7, h8⟩
  · simp only [not_lt] at hc
    exact ⟨h1, h2, hc, by linarith, h5, h6, h7, h8⟩

theorem clamped_scancodeRight (s : State) (h : Clamped s) : Clamped (scancodeRight s) := by
  rcases s with ⟨lt, q, cx, cy, z, cr, ci, px, rg, mi, pa, rv, mb⟩
  simp only [Clamped, scancodeRight] at *
  obtain ⟨h1, h2, h3, h4, h5, h6, h7, h8⟩ := h
  split_ifs with hc
  · exact ⟨h1, h2, by norm_num, le_refl _, h5, h6, h7, h8⟩
  · simp only [not_lt] at hc
    exact ⟨h1, h2, by linarith, hc, h5, h6, h7, h8⟩

theorem clamped_scancodeLShift (s : State) (h : Clamped s) : Clamped (scancodeLShift s) := by
  rcases s with ⟨lt, q, cx, cy, z, cr, ci, px, rg, mi, pa, rv, mb⟩
  simp only [Clamped, scancodeLShift] at *
  obtain ⟨h1, h2, h3, h4, h5, h6, h7, h8⟩ := h
  cases mb <;> simp only [Bool.false_eq_true, if_true, if_false] <;> split_ifs <;>
    refine ⟨?_, ?_, h3, h4, h5, h6, ?_, ?_⟩ <;> (try simp only [not_lt] at *) <;>
    linarith

theorem clamped_scancodeLCtrl (s : State) (h : Clamped s) : Clamped (scancodeLCtrl s) := by
  rcases s with ⟨lt, q, cx, cy, z, cr, ci, px, rg, mi, pa, rv, mb⟩
  simp only [Clamped, scancodeLCtrl] at *
  obtain ⟨h1, h2, h3, h4, h5, h6, h7, h8⟩ := h
  cases mb <;> simp only [Bool.false_eq_true, if_true, if_false] <;> split_ifs <;>
    refine ⟨?_, ?_, h3, h4, h5, h6, ?_, ?_⟩ <;> (try simp only [not_lt] at *) <;>
    linarith

theorem clamped_applyKeys (keys : KeyState) (s : State) (h : Clamped s) :
    Clamped (applyKeys keys s) := by
  unfold applyKeys
  have step : ∀ (b : Bool) (f : State → State), (∀ t, Clamped t → Clamped (f t)) →
      ∀ t, Clamped t → Clamped (if b = true then f t else t) := by
    intro b f hf t ht
    cases b
    · simpa using ht
    · simpa using hf t ht
  exact step _ _ clamped_scancodeLCtrl _ (step _ _ clamped_scancodeLShift _
    (step _ _ clamped_scancodeRight _ (step _ _ clamped_scancodeLeft _
    (step _ _ clamped_scancodeDown _ (step _ _ clamped_scancodeUp _ h)))))

theorem clamped_Input (evs : List Event) (keys : KeyState) (s : State) (h : Clamped s) :
    Clamped (Input evs keys s) :=
  clamped_applyKeys keys _ (clamped_pollEvents evs s h)

theorem clamped_initGlobals : Clamped initGlobals := by
  norm_num [Clamped, initGlobals]

/-! ## Frame conditions of `Input` -/

theorem NavOnly.refl (s : State) : NavOnly s s := by
  rcases s with ⟨lt, q, cx, cy, z, cr, ci, px, rg, mi, pa, rv, mb⟩
  simp [NavOnly]

theorem NavOnly.trans {s t u : State} (h1 : NavOnly s t) (h2 : NavOnly t u) : NavOnly s u := by
  unfold NavOnly at *
  rw [h2, h1]

theorem navOnly_scancodeUp (s : State) : NavOnly s (scancodeUp s) := by
  simp only [NavOnly, scancodeUp]; split_ifs <;> rfl

theorem navOnly_scancodeDown (s : State) : NavOnly s (scancodeDown s) := by
  simp only [NavOnly, scancodeDown]; split_ifs <;> rfl

theorem navOnly_scancodeLeft (s : State) : NavOnly s (scancodeLeft s) := by
  simp only [NavOnly, scancodeLeft]; split_ifs <;> rfl

theorem navOnly_scancodeRight (s : State) : NavOnly s (scancodeRight s) := by
  simp only [NavOnly, scancodeRight]; split_ifs <;> rfl

theorem navOnly_scancodeLShift (s : State) : NavOnly s (scancodeLShift s) := by
  simp only [NavOnly, scancodeLShift]; split_ifs <;> rfl

theorem navOnly_scancodeLCtrl (s : State) : NavOnly s (scancodeLCtrl s) := by
  simp only [NavOnly, scancodeLCtrl]; split_ifs <;> rfl

theorem navOnly_applyKeys (keys : KeyState) (s : State) : NavOnly s (applyKeys keys s) := by
  unfold applyKeys
  have step : ∀ (b : Bool) (f : State → State), (∀ t, NavOnly t (f t)) →
      ∀ t, NavOnly s t → NavOnly s (if b = true then f t else t) := by
    intro b f hf t ht
    cases b
    · simpa using ht
    · simpa using ht.trans (hf t)
  exact step _ _ navOnly_scancodeLCtrl _ (step _ _ navOnly_scancodeLShift _
    (step _ _ navOnly_scancodeRight _ (step _ _ navOnly_scancodeLeft _
    (step _ _ navOnly_scancodeDown _ (step _ _ navOnly_scancodeUp _ (NavOnly.refl s))))))

theorem handleEvent_anim (s : State) (e : Event) :
    (handleEvent s e).gConstantReal = s.gConstantReal ∧
    (handleEvent s e).gConstantImag = s.gConstantImag ∧
    (handleEvent s e).gLastTime = s.gLastTime := by
  rcases s with ⟨lt, q, cx, cy, z, cr, ci, px, rg, mi, pa, rv, mb⟩
  rcases e with _ | sym | _
  · simp [handleEvent]
  · cases sym <;> cases mb <;> simp [handleEvent]
  · simp [handleEvent]

theorem pollEvents_anim (evs : List Event) (s : State) :
    (pollEvents evs s).gConstantReal = s.gConstantReal ∧
    (pollEvents evs s).gConstantImag = s.gConstantImag ∧
    (pollEvents evs s).gLastTime = s.gLastTime := by
  induction evs generalizing s with
  | nil => simp [pollEvents]
  | cons e rest ih =>
    have h1 := ih (handleEvent s e)
    have h2 := handleEvent_anim s e
    simp only [pollEvents, List.foldl_cons] at h1 ⊢
    exact ⟨h1.1.trans h2.1, h1.2.1.trans h2.2.1, h1.2.2.trans h2.2.2⟩

theorem Input_anim (evs : List Event) (keys : KeyState) (s : State) :
    (Input evs keys s).gConstantReal = s.gConstantReal ∧
    (Input evs keys s).gConstantImag = s.gConstantImag ∧
    (Input evs keys s).gLastTime = s.gLastTime := by
  have hk := navOnly_applyKeys keys (pollEvents evs s)
  have hp := pollEvents_anim evs s
  unfold Input
  unfold NavOnly at hk
  rw [hk]
  exact hp

theorem handleEvent_pause (s : State) (e : Event) (he : e ≠ Event.keydown Keycode.p) :
    (handleEvent s e).gPause = s.gPause := by
  rcases s with ⟨lt, q, cx, cy, z, cr, ci, px, rg, mi, pa, rv, mb⟩
  rcases e with _ | sym | _
  · simp [handleEvent]
  · cases sym <;> cases mb <;> simp [handleEvent] at he ⊢
  · simp [handleEvent]

theorem pollEvents_pause (evs : List Event) (s : State)
    (he : ∀ e ∈ evs, e ≠ Event.keydown Keycode.p) :
    (pollEvents evs s).gPause = s.gPause := by
  induction evs generalizing s with
  | nil => simp [pollEvents]
  | cons e rest ih =>
    have h1 := ih (handleEvent s e) (fun x hx => he x (List.mem_cons_of_mem _ hx))
    have h2 := handleEvent_pause s e (he e (List.mem_cons_self _ _))
    simp only [pollEvents, List.foldl_cons] at h1 ⊢
    exact h1.trans h2

theorem Input_pause (evs : List Event) (keys : KeyState) (s : State)
    (he : ∀ e ∈ evs, e ≠ Event.keydown Keycode.p) :
    (Input evs keys s).gPause = s.gPause := by
  have hk := navOnly_applyKeys keys (pollEvents evs s)
  unfold Input
  unfold NavOnly at hk
  rw [hk]
  exact pollEvents_pause evs s he

theorem frame_eq (i : FrameInput) (s : State) :
    frame i s =
      match find_ranges i.depth with
      | (some r, sorted) =>
          some (uploaded i s, { afterAnimate i s with gPixelData := sorted, gRanges := r })
      | (none, _) => none := by
  simp only [frame, uploaded, afterAnimate, animateStep]

theorem handleEvent_noCommand (s : State) (e : Event) (he : e.isCommand = false) :
    handleEvent s e = { s with gQuit := (handleEvent s e).gQuit } := by
  rcases e with _ | sym | _
  · simp [handleEvent]
  · cases sym <;> simp [Event.isCommand] at he
    simp [handleEvent]
  · simp [handleEvent]

theorem pollEvents_noCommand (evs : List Event) (s : State)
    (he : ∀ e ∈ evs, e.isCommand = false) :
    pollEvents evs s = { s with gQuit := (pollEvents evs s).gQuit } := by
  induction evs generalizing s with
  | nil => simp [pollEvents]
  | cons e rest ih =>
    have h1 := ih (handleEvent s e) (fun x hx => he x (List.mem_cons_of_mem _ hx))
    have h2 := handleEvent_noCommand s e (he e (List.mem_cons_self _ _))
    simp only [pollEvents, List.foldl_cons] at h1 ⊢
    rw [h1, h2]

/-! ## `Animate` -/

theorem Animate_idle (tick : ℕ) (s : State)
    (h : ¬ (s.gMandelbrot = false ∧ 125 < ((tick : ℤ) - (s.gLastTime : ℤ)) % 2 ^ 64)) :
    Animate tick s = s := by
  unfold Animate
  rw [if_neg]
  intro hc
  exact h ⟨hc.2, hc.1⟩

theorem Animate_fire (tick : ℕ) (s : State)
    (h : s.gMandelbrot = false ∧ 125 < ((tick : ℤ) - (s.gLastTime : ℤ)) % 2 ^ 64) :
    Animate tick s =
      { s with
        gLastTime := (s.gLastTime + 125) % 2 ^ 64
        gConstantImag :=
          if s.gConstantImag - 3 / 2000 ≤ -(3 / 4) then 9 / 20 else s.gConstantImag - 3 / 2000
        gConstantReal :=
          if s.gConstantImag - 3 / 2000 ≤ -(3 / 4) then 11 / 20
          else s.gConstantReal - 3 / 2000 } := by
  unfold Animate
  rw [if_pos ⟨h.2, h.1⟩]
  simp only
  split_ifs <;> rfl

theorem juliaBand_Animate (tick : ℕ) (s : State) (h : JuliaBand s) :
    JuliaBand (Animate tick s) := by
  by_cases hc : s.gMandelbrot = false ∧ 125 < ((tick : ℤ) - (s.gLastTime : ℤ)) % 2 ^ 64
  · rw [Animate_fire tick s hc]
    obtain ⟨h1, h2, h3⟩ := h
    unfold JuliaBand
    simp only
    split_ifs with hw
    · refine ⟨by norm_num, by norm_num, Or.inr (by norm_num)⟩
    · simp only [not_le] at hw
      refine ⟨hw, by linarith, ?_⟩
      rcases h3 with h3 | h3
      · left; linarith
      · right; linarith
  · rw [Animate_idle tick s hc]; exact h

theorem juliaBand_of_anim {s t : State} (h : JuliaBand s)
    (h1 : t.gConstantReal = s.gConstantReal) (h2 : t.gConstantImag = s.gConstantImag) :
    JuliaBand t := by
  unfold JuliaBand at *
  rw [h1, h2]; exact h

theorem juliaBand_frame (i : FrameInput) (s s' : State) (u : Uniforms) (h : JuliaBand s)
    (hf : frame i s = some (u, s')) : JuliaBand s' := by
  rw [frame_eq] at hf
  rcases hfr : find_ranges i.depth with ⟨o, sorted⟩
  rw [hfr] at hf
  cases o with
  | none => simp at hf
  | some r =>
    simp only [Option.some.injEq, Prod.mk.injEq] at hf
    have hi := Input_anim i.events i.keys s
    have hA : JuliaBand (afterAnimate i s) := by
      unfold afterAnimate animateStep
      split_ifs
      · exact juliaBand_Animate _ _ (juliaBand_of_anim h hi.1 hi.2.1)
      · exact juliaBand_of_anim h hi.1 hi.2.1
    rw [← hf.2]
    exact juliaBand_of_anim hA rfl rfl

theorem juliaBand_reachable (s : State) (h : Reachable s) : JuliaBand s := by
  induction h with
  | init => norm_num [JuliaBand, initGlobals]
  | boot tick _ ih => exact juliaBand_of_anim ih rfl rfl
  | @input evs keys s0 _ ih =>
    have hi := Input_anim evs keys s0
    exact juliaBand_of_anim ih hi.1 hi.2.1
  | animate tick _ ih => exact juliaBand_Animate tick _ ih
  | loopBody i _ hf ih => exact juliaBand_frame i _ _ _ ih hf

/-! ## `find_ranges`: sorting, the zero scan and the indices -/

theorem sortBuffer_sorted (buf : List ℚ) : (sortBuffer buf).Sorted (· ≤ ·) :=
  List.sorted_insertionSort _ buf

theorem sortBuffer_perm (buf : List ℚ) : (sortBuffer buf).Perm buf :=
  List.perm_insertionSort _ buf

theorem sortBuffer_length (buf : List ℚ) : (sortBuffer buf).length = buf.length :=
  (sortBuffer_perm buf).length_eq

theorem sortBuffer_unique (buf s : List ℚ) (hs : s.Sorted (· ≤ ·)) (hp : s.Perm buf) :
    sortBuffer buf = s :=
  List.eq_of_perm_of_sorted ((sortBuffer_perm buf).trans hp.symm) (sortBuffer_sorted buf) hs

theorem zeroScan_eq_none (l : List ℚ) (m : ℕ) :
    zeroScan l m = none ↔ ∀ v ∈ l, v = 0 := by
  induction l generalizing m with
  | nil => simp [zeroScan]
  | cons a t ih =>
    by_cases ha : a = 0
    · simp [zeroScan, ha, ih]
    · simp [zeroScan, ha]

theorem zeroScan_some (l : List ℚ) (m r : ℕ) (h : zeroScan l m = some r) :
    m ≤ r ∧ r < m + l.length ∧ (∃ v, l[r - m]? = some v ∧ v ≠ 0) ∧
      ∀ j, j < r - m → l[j]? = some 0 := by
  induction l generalizing m with
  | nil => simp [zeroScan] at h
  | cons a t ih =>
    by_cases ha : a = 0
    · simp only [zeroScan, ha, if_true] at h
      obtain ⟨h1, h2, ⟨v, hv, hv0⟩, h4⟩ := ih (m + 1) h
      have e : r - m = (r - (m + 1)) + 1 := by omega
      refine ⟨by omega, by simp only [List.length_cons]; omega, ⟨v, ?_, hv0⟩, ?_⟩
      · rw [e, List.getElem?_cons_succ]; exact hv
      · intro j hj
        cases j with
        | zero => simp [ha]
        | succ j' =>
          rw [List.getElem?_cons_succ]
          exact h4 j' (by omega)
    · simp only [zeroScan, ha, if_false, Option.some.injEq] at h
      subst h
      refine ⟨le_refl _, by simp, ⟨a, by simp, ha⟩, ?_⟩
      intro j hj
      omega

theorem zeroScan_replicate_append (k m : ℕ) (v : ℚ) (t : List ℚ) (hv : v ≠ 0) :
    zeroScan (List.replicate k 0 ++ v :: t) m = some (m + k) := by
  induction k generalizing m with
  | zero => simp [zeroScan, hv]
  | succ k ih =>
    have e : List.replicate (k + 1) (0 : ℚ) ++ v :: t = 0 :: (List.replicate k 0 ++ v :: t) := by
      simp [List.replicate_succ]
    rw [e, zeroScan, if_pos rfl, ih (m + 1)]
    congr 1
    omega

theorem readAt_natCast (s : List ℚ) (i : ℕ) : readAt s (i : ℤ) = s[i]? := by
  simp [readAt]

theorem readAt_isSome (s : List ℚ) (i : ℤ) (h0 : 0 ≤ i) (h1 : i ≤ (s.length : ℤ) - 1) :
    ∃ v, readAt s i = some v := by
  obtain ⟨n, rfl⟩ := Int.eq_ofNat_of_zero_le h0
  rw [readAt_natCast]
  have hn : n < s.length := by omega
  exact ⟨_, List.getElem?_eq_getElem hn⟩

theorem rangeIndices_bounds (size m : ℕ) (h2 : 2 ≤ size) (hm : m < size) :
    0 ≤ (rangeIndices size m).1 ∧ (rangeIndices size m).1 ≤ (size : ℤ) - 1 ∧
    0 ≤ (rangeIndices size m).2.1 ∧ (rangeIndices size m).2.1 ≤ (size : ℤ) - 1 ∧
    0 ≤ (rangeIndices size m).2.2.1 ∧ (rangeIndices size m).2.2.1 ≤ (size : ℤ) - 1 ∧
    0 ≤ (rangeIndices size m).2.2.2 ∧ (rangeIndices size m).2.2.2 ≤ (size : ℤ) - 1 := by
  simp only [rangeIndices]
  rw [Int.tdiv_eq_ediv (by omega) (by omega), Int.tdiv_eq_ediv (by omega) (by omega)]
  omega

theorem rangeIndices_natCast (k n : ℕ) (hn : 2 ≤ n) :
    rangeIndices ((k + n : ℕ) : ℤ) (k : ℤ) =
      ((k : ℤ), ((k + (4 * n / 5 - 1) : ℕ) : ℤ), ((k + (9 * n / 10 - 1) : ℕ) : ℤ),
        ((k + (n - 1) : ℕ) : ℤ)) := by
  simp only [rangeIndices]
  rw [Int.tdiv_eq_ediv (by omega) (by omega), Int.tdiv_eq_ediv (by omega) (by omega)]
  refine Prod.ext rfl (Prod.ext ?_ (Prod.ext ?_ ?_)) <;> simp only <;> omega

theorem sorted_zeros_first (l : List ℚ) (hs : l.Sorted (· ≤ ·)) (hnn : ∀ v ∈ l, 0 ≤ v) :
    l = List.replicate (l.count 0) 0 ++ l.filter (· ≠ 0) := by
  induction l with
  | nil => simp
  | cons a t ih =>
    rw [List.sorted_cons] at hs
    by_cases ha : a = 0
    · subst ha
      have := ih hs.2 (fun v hv => hnn v (List.mem_cons_of_mem _ hv))
      simp only [List.count_cons_self, List.replicate_succ, List.cons_append, ne_eq,
        not_true_eq_false, decide_False, Bool.false_eq_true, not_false_eq_true,
        List.filter_cons_of_neg]
      simp only [ne_eq] at this
      rw [← this]
    · have hpos : 0 < a := lt_of_le_of_ne (hnn a (List.mem_cons_self _ _)) (Ne.symm ha)
      have hall : ∀ v ∈ a :: t, v ≠ 0 := by
        intro v hv
        rcases List.mem_cons.1 hv with rfl | hv
        · exact ha
        · exact ne_of_gt (lt_of_lt_of_le hpos (hs.1 v hv))
      have hc : (a :: t).count 0 = 0 := by
        rw [List.count_eq_zero]
        intro hmem
        exact hall 0 hmem rfl
      have hf : (a :: t).filter (· ≠ 0) = a :: t := by
        rw [List.filter_eq_self]
        intro v hv
        simpa using hall v hv
      rw [hc, hf]
      simp

theorem find_ranges_of_reads (buf : List ℚ) (m : ℕ) (x y z w : ℚ)
    (hm : zeroScan (sortBuffer buf) 0 = some m)
    (hx : readAt (sortBuffer buf) (rangeIndices buf.length m).1 = some x)
    (hy : readAt (sortBuffer buf) (rangeIndices buf.length m).2.1 = some y)
    (hz : readAt (sortBuffer buf) (rangeIndices buf.length m).2.2.1 = some z)
    (hw : readAt (sortBuffer buf) (rangeIndices buf.length m).2.2.2 = some w) :
    find_ranges buf = (some ⟨x, y, z, w⟩, sortBuffer buf) := by
  simp only [find_ranges, sortBuffer_length, hm, Option.bind_eq_bind, Option.some_bind, hx, hy,
    hz, hw, Option.pure_def]

/-- C9: for every buffer of length at least 2 holding a non-zero value, the
zero scan over the sorted buffer stops at an index `m` inside the buffer, on a
non-zero entry, and each of the four indices read (`m`, `m + len*4/5 - 1`,
`m + len*9/10 - 1`, `size - 1`, with `len = size - m` and truncating division)
lies in `[0, size - 1]`, so that `find_ranges` returns a vector.  For an
all-zero buffer the scan finds no stopping index inside the buffer. -/
theorem find_ranges_index_safe (buf : List ℚ) :
    (2 ≤ buf.length → (∃ v ∈ buf, v ≠ 0) →
      ∃ m, zeroScan (sortBuffer buf) 0 = some m ∧ m < buf.length ∧
        (∃ v, (sortBuffer buf)[m]? = some v ∧ v ≠ 0) ∧
        0 ≤ (rangeIndices buf.length m).1 ∧
        (rangeIndices buf.length m).1 ≤ (buf.length : ℤ) - 1 ∧
        0 ≤ (rangeIndices buf.length m).2.1 ∧
        (rangeIndices buf.length m).2.1 ≤ (buf.length : ℤ) - 1 ∧
        0 ≤ (rangeIndices buf.length m).2.2.1 ∧
        (rangeIndices buf.length m).2.2.1 ≤ (buf.length : ℤ) - 1 ∧
        0 ≤ (rangeIndices buf.length m).2.2.2 ∧
        (rangeIndices buf.length m).2.2.2 ≤ (buf.length : ℤ) - 1 ∧
        ∃ r, (find_ranges buf).1 = some r) ∧
    ((∀ v ∈ buf, v = 0) →
      zeroScan (sortBuffer buf) 0 = none ∧ (find_ranges buf).1 = none) := by
  constructor
  · intro h2 ⟨v, hv, hv0⟩
    have hne : zeroScan (sortBuffer buf) 0 ≠ none := by
      rw [Ne, zeroScan_eq_none]
      intro hall
      exact hv0 (hall v ((sortBuffer_perm buf).mem_iff.2 hv))
    obtain ⟨m, hm⟩ := Option.ne_none_iff_exists'.1 hne
    obtain ⟨_, hlt, hstop, _⟩ := zeroScan_some _ _ _ hm
    rw [sortBuffer_length] at hlt
    have hlt' : m < buf.length := by omega
    have hb := rangeIndices_bounds buf.length m h2 hlt'
    obtain ⟨b1, b2, b3, b4, b5, b6, b7, b8⟩ := hb
    have hl := sortBuffer_length buf
    obtain ⟨x, hx⟩ := readAt_isSome (sortBuffer buf) _ b1 (by rw [hl]; exact b2)
    obtain ⟨y, hy⟩ := readAt_isSome (sortBuffer buf) _ b3 (by rw [hl]; exact b4)
    obtain ⟨z, hz⟩ := readAt_isSome (sortBuffer buf) _ b5 (by rw [hl]; exact b6)
    obtain ⟨w, hw⟩ := readAt_isSome (sortBuffer buf) _ b7 (by rw [hl]; exact b8)
    refine ⟨m, hm, hlt', by simpa using hstop, b1, b2, b3, b4, b5, b6, b7, b8, ⟨x, y, z, w⟩, ?_⟩
    rw [find_ranges_of_reads buf m x y z w hm hx hy hz hw]
  · intro hall
    have hn : zeroScan (sortBuffer buf) 0 = none := by
      rw [zeroScan_eq_none]
      intro v hv
      exact hall v ((sortBuffer_perm buf).mem_iff.1 hv)
    refine ⟨hn, ?_⟩
    simp [find_ranges, hn]

/-- Witness for C9: a buffer of four entries with two non-zero values, and the
all-zero buffer of three entries. -/
theorem find_ranges_index_safe_witness :
    (∃ m, zeroScan (sortBuffer [1 / 2, 0, 0, 1 / 4]) 0 = some m ∧ m < 4) ∧
    zeroScan (sortBuffer [0, 0, 0]) 0 = none :=
  ⟨by
      obtain ⟨m, h1, h2, _⟩ :=
        (find_ranges_index_safe [1 / 2, 0, 0, 1 / 4]).1 (by decide) ⟨1 / 2, by decide!, by decide!⟩
      exact ⟨m, h1, h2⟩,
    ((find_ranges_index_safe [0, 0, 0]).2 (by decide!)).1⟩

/-- C8, the code at the failing inputs: with a single non-zero depth value
`len = 1`, both middle indices are `min - 1`; `find_ranges` returns
`(0.5, 0, 0, 0.5)` for the buffer `[0, 0, 0.5]`, whose second cutoff is below
the first, and reads index `-1` for the buffer `[0.5]`. -/
theorem find_ranges_single_nonzero :
    (find_ranges [0, 0, 1 / 2]).1 = some ⟨1 / 2, 0, 0, 1 / 2⟩ ∧
    rangeIndices 3 2 = (2, 1, 1, 2) ∧
    (find_ranges [1 / 2]).1 = none ∧
    rangeIndices 1 0 = (0, -1, -1, 0) := by
  refine ⟨?_, ?_, ?_, ?_⟩ <;> decide!

theorem find_ranges_zeros_then_nonzero (buf nz : List ℚ) (k : ℕ)
    (hsort : sortBuffer buf = List.replicate k 0 ++ nz) (hnz : ∀ v ∈ nz, v ≠ 0)
    (hn : 2 ≤ nz.length) :
    ∃ x y z w,
      nz[0]? = some x ∧ nz[4 * nz.length / 5 - 1]? = some y ∧
      nz[9 * nz.length / 10 - 1]? = some z ∧ nz[nz.length - 1]? = some w ∧
      find_ranges buf = (some ⟨x, y, z, w⟩, List.replicate k 0 ++ nz) := by
  have hlen : buf.length = k + nz.length := by
    rw [← sortBuffer_length, hsort]; simp
  have hx := List.getElem?_eq_getElem (l := nz) (n := 0) (by omega)
  have hy := List.getElem?_eq_getElem (l := nz) (n := 4 * nz.length / 5 - 1) (by omega)
  have hz := List.getElem?_eq_getElem (l := nz) (n := 9 * nz.length / 10 - 1) (by omega)
  have hw := List.getElem?_eq_getElem (l := nz) (n := nz.length - 1) (by omega)
  refine ⟨_, _, _, _, hx, hy, hz, hw, ?_⟩
  obtain ⟨v, t, rfl⟩ : ∃ v t, nz = v :: t := by
    cases nz with
    | nil => simp at hn
    | cons v t => exact ⟨v, t, rfl⟩
  have hv : v ≠ 0 := hnz v (List.mem_cons_self _ _)
  have hscan : zeroScan (sortBuffer buf) 0 = some k := by
    rw [hsort, zeroScan_replicate_append k 0 v t hv]; simp
  have hidx := rangeIndices_natCast k (v :: t).length hn
  rw [← hlen] at hidx
  have hread : ∀ j : ℕ, readAt (sortBuffer buf) ((k + j : ℕ) : ℤ) = (v :: t)[j]? := by
    intro j
    rw [readAt_natCast, hsort, List.getElem?_append_right (by simp)]
    simp
  rw [← hsort]
  apply find_ranges_of_reads buf k
  · exact hscan
  · rw [hidx]; simpa using hread 0
  · rw [hidx]; simp only; rw [hread]; exact hy
  · rw [hidx]; simp only; rw [hread]; exact hz
  · rw [hidx]; simp only; rw [hread]; exact hw

/-- C1: for every buffer of non-negative values with `n ≥ 2` non-zero entries,
writing `s` for its ascending sort, `k` for its number of zero entries and
`nz` for the ascending sort of its non-zero entries, `find_ranges` returns
`(s[k], s[k + ⌊4n/5⌋ - 1], s[k + ⌊9n/10⌋ - 1], s[size - 1])`, which is
`(nz[0], nz[⌊4n/5⌋ - 1], nz[⌊9n/10⌋ - 1], nz[n - 1])`: the minimum, the
`⌊4n/5⌋`-th smallest, the `⌊9n/10⌋`-th smallest and the maximum of the
non-zero values; and it leaves the buffer as `s`. -/
theorem find_ranges_percentile_cutoffs (buf s nz : List ℚ)
    (hnn : ∀ v ∈ buf, 0 ≤ v)
    (hs : s.Sorted (· ≤ ·)) (hp : s.Perm buf)
    (hnzs : nz.Sorted (· ≤ ·)) (hnzp : nz.Perm (buf.filter (· ≠ 0)))
    (hn : 2 ≤ buf.length - buf.count 0) :
    nz.length = buf.length - buf.count 0 ∧
    ∃ x y z w,
      find_ranges buf = (some ⟨x, y, z, w⟩, s) ∧
      s[buf.count 0]? = some x ∧
      s[buf.count 0 + 4 * (buf.length - buf.count 0) / 5 - 1]? = some y ∧
      s[buf.count 0 + 9 * (buf.length - buf.count 0) / 10 - 1]? = some z ∧
      s[buf.length - 1]? = some w ∧
      nz[0]? = some x ∧
      nz[4 * (buf.length - buf.count 0) / 5 - 1]? = some y ∧
      nz[9 * (buf.length - buf.count 0) / 10 - 1]? = some z ∧
      nz[buf.length - buf.count 0 - 1]? = some w ∧
      (∀ v ∈ buf, v ≠ 0 → x ≤ v ∧ v ≤ w) := by
  have hsb : sortBuffer buf = s := sortBuffer_unique buf s hs hp
  have hnn' : ∀ v ∈ s, 0 ≤ v := fun v hv => hnn v (hp.mem_iff.1 hv)
  have hsplit := sorted_zeros_first s hs hnn'
  have hk : s.count 0 = buf.count 0 := hp.count_eq 0
  have hnz : nz = s.filter (· ≠ 0) :=
    List.eq_of_perm_of_sorted (hnzp.trans (hp.filter _).symm) hnzs (hs.filter _)
  rw [← hnz, hk] at hsplit
  have hlen : buf.length = buf.count 0 + nz.length := by
    rw [← hp.length_eq]
    conv_lhs => rw [hsplit]
    simp
  have hnl : nz.length = buf.length - buf.count 0 := by omega
  have hnz0 : ∀ v ∈ nz, v ≠ 0 := by
    intro v hv
    rw [hnz] at hv
    simpa using (List.mem_filter.1 hv).2
  obtain ⟨x, y, z, w, hx, hy, hz, hw, hfr⟩ :=
    find_ranges_zeros_then_nonzero buf nz (buf.count 0) (by rw [hsb]; exact hsplit) hnz0
      (by omega)
  rw [← hsplit] at hfr
  rw [hnl] at hy hz hw
  have hget : ∀ j : ℕ, s[buf.count 0 + j]? = nz[j]? := by
    intro j
    conv_lhs => rw [hsplit]
    rw [List.getElem?_append_right (by simp)]
    simp
  refine ⟨hnl, x, y, z, w, hfr, ?_, ?_, ?_, ?_, hx, hy, hz, hw, ?_⟩
  · simpa using (hget 0).trans hx
  · have e : buf.count 0 + 4 * (buf.length - buf.count 0) / 5 - 1 =
        buf.count 0 + (4 * (buf.length - buf.count 0) / 5 - 1) := by omega
    rw [e, hget]; exact hy
  · have e : buf.count 0 + 9 * (buf.length - buf.count 0) / 10 - 1 =
        buf.count 0 + (9 * (buf.length - buf.count 0) / 10 - 1) := by omega
    rw [e, hget]; exact hz
  · have e : buf.length - 1 = buf.count 0 + (buf.length - buf.count 0 - 1) := by omega
    rw [e, hget]; exact hw
  · intro v hv hv0
    have hmem : v ∈ nz := by
      rw [hnz, List.mem_filter]
      exact ⟨hp.mem_iff.2 hv, by simpa using hv0⟩
    obtain ⟨i, hi, rfl⟩ := List.getElem_of_mem hmem
    have hx' : nz[0]? = some x := hx
    have hw' : nz[buf.length - buf.count 0 - 1]? = some w := hw
    rw [List.getElem?_eq_getElem (by omega)] at hx' hw'
    simp only [Option.some.injEq] at hx' hw'
    rw [← hx', ← hw']
    have hpw := List.pairwise_iff_getElem.1 hnzs
    constructor
    · rcases Nat.eq_zero_or_pos i with h0 | hpos
      · subst h0; exact le_refl _
      · exact hpw 0 i (by omega) hi hpos
    · rcases Nat.lt_or_ge i (buf.length - buf.count 0 - 1) with hlt | hge
      · exact hpw i _ hi (by omega) hlt
      · have : i = buf.length - buf.count 0 - 1 := by omega
        subst this; exact le_refl _

/-- Witness for C1: a buffer of five depth values, two of them zero. -/
theorem find_ranges_percentile_cutoffs_witness :
    find_ranges [1 / 2, 0, 1, 0, 1 / 4] =
      (some ⟨1 / 4, 1 / 2, 1 / 2, 1⟩, [0, 0, 1 / 4, 1 / 2, 1]) := by
  obtain ⟨_, x, y, z, w, hfr, hx, hy, hz, hw, _⟩ :=
    find_ranges_percentile_cutoffs [1 / 2, 0, 1, 0, 1 / 4] [0, 0, 1 / 4, 1 / 2, 1]
      [1 / 4, 1 / 2, 1] (by decide!) (by decide!) (by decide!) (by decide!) (by decide!)
      (by decide!)
  have ec : List.count (0 : ℚ) [1 / 2, 0, 1, 0, 1 / 4] = 2 := by decide!
  rw [ec] at hx hy hz
  simp only [List.length_cons, List.length_nil] at hy hz hw
  have e1 : ([0, 0, 1 / 4, 1 / 2, 1] : List ℚ)[2]? = some x := hx
  have e2 : ([0, 0, 1 / 4, 1 / 2, 1] : List ℚ)[3]? = some y := hy
  have e3 : ([0, 0, 1 / 4, 1 / 2, 1] : List ℚ)[3]? = some z := hz
  have e4 : ([0, 0, 1 / 4, 1 / 2, 1] : List ℚ)[4]? = some w := hw
  simp only [List.getElem?_cons_succ, List.getElem?_cons_zero, Option.some.injEq] at e1 e2 e3 e4
  rw [hfr, ← e1, ← e2, ← e3, ← e4]

/-! ## Claims on the control loop -/

/-- C2, as stated, fails: in the frame run at tick 1200 on the Julia-mode
state reached by `InitializeProgram` at tick 1000 and a `J` key press, the
uploaded `constant_x`, `constant_y` are `0.1`, `0.5`, while the `Animate` step
of that same frame leaves `gConstantReal = 0.0985`, `gConstantImag = 0.4985`. -/
theorem frame_uploads_before_animate_counterexample :
    (frame ⟨[], noKeys, 1200, [1 / 2, 1]⟩
        (Input [Event.keydown Keycode.j] noKeys (InitializeProgram 1000 initGlobals))).map
      (fun r => (r.1.constant_x, r.1.constant_y, r.2.gConstantReal, r.2.gConstantImag))
      = some (1 / 10, 1 / 2, 197 / 2000, 997 / 2000) ∧
    (uploaded ⟨[], noKeys, 1200, [1 / 2, 1]⟩
        (Input [Event.keydown Keycode.j] noKeys
          (InitializeProgram 1000 initGlobals))).constant_x ≠
      (afterAnimate ⟨[], noKeys, 1200, [1 / 2, 1]⟩
        (Input [Event.keydown Keycode.j] noKeys
          (InitializeProgram 1000 initGlobals))).gConstantReal ∧
    (uploaded ⟨[], noKeys, 1200, [1 / 2, 1]⟩
        (Input [Event.keydown Keycode.j] noKeys
          (InitializeProgram 1000 initGlobals))).constant_y ≠
      (afterAnimate ⟨[], noKeys, 1200, [1 / 2, 1]⟩
        (Input [Event.keydown Keycode.j] noKeys
          (InitializeProgram 1000 initGlobals))).gConstantImag := by
  refine ⟨?_, ?_, ?_⟩ <;> decide!

/-- C2, amended: a frame runs `Input`, then the uniform upload, then `Animate`,
then the depth read-back and `find_ranges`.  For every state and every frame
input (events, keys, tick, depth), the uploaded `constant_x`, `constant_y` are
`gConstantReal`, `gConstantImag` as they are before that frame's `Animate`
step: after its `Input` step, which leaves them as they were when the frame
began. -/
theorem frame_uploads_constants_before_animate (i : FrameInput) (s : State) :
    (uploaded i s).constant_x = (Input i.events i.keys s).gConstantReal ∧
    (uploaded i s).constant_y = (Input i.events i.keys s).gConstantImag ∧
    (uploaded i s).constant_x = s.gConstantReal ∧
    (uploaded i s).constant_y = s.gConstantImag ∧
    afterAnimate i s = animateStep i.tick (Input i.events i.keys s) ∧
    frame i s =
      (match find_ranges i.depth with
       | (some r, sorted) =>
           some (uploaded i s, { afterAnimate i s with gPixelData := sorted, gRanges := r })
       | (none, _) => none) := by
  have hi := Input_anim i.events i.keys s
  exact ⟨rfl, rfl, hi.1, hi.2.1, rfl, frame_eq i s⟩

/-- C3: every state reached from the initial globals by calls of `Input`, with
any pending events and any held keys, has `0.000005 ≤ gZoom ≤ 1`,
`-1 ≤ gCenterX ≤ 1`, `-1 ≤ gCenterY ≤ 1` and `15 ≤ gMaxIterations ≤ 500`. -/
theorem input_keeps_navigation_clamped (s : State) (h : InputReachable s) :
    1 / 200000 ≤ s.gZoom ∧ s.gZoom ≤ 1 ∧
    -1 ≤ s.gCenterX ∧ s.gCenterX ≤ 1 ∧
    -1 ≤ s.gCenterY ∧ s.gCenterY ≤ 1 ∧
    15 ≤ s.gMaxIterations ∧ s.gMaxIterations ≤ 500 := by
  have hc : Clamped s := by
    induction h with
    | init => exact clamped_initGlobals
    | input evs keys _ ih => exact clamped_Input evs keys _ ih
  exact hc

/-- Witness for C3: the state after a `J` key press with left control and the
up arrow held is reachable by `Input`, and satisfies the bounds. -/
theorem input_keeps_navigation_clamped_witness :
    InputReachable
      (Input [Event.keydown Keycode.j] ⟨true, false, false, false, false, true⟩ initGlobals) ∧
    1 / 200000 ≤
      (Input [Event.keydown Keycode.j] ⟨true, false, false, false, false, true⟩
        initGlobals).gZoom ∧
    (Input [Event.keydown Keycode.j] ⟨true, false, false, false, false, true⟩
        initGlobals).gMaxIterations ≤ 500 :=
  ⟨InputReachable.input _ _ InputReachable.init,
    (input_keeps_navigation_clamped _ (InputReachable.input _ _ InputReachable.init)).1,
    (input_keeps_navigation_clamped _
      (InputReachable.input _ _ InputReachable.init)).2.2.2.2.2.2.2⟩

/-- C4: a `J` key press in Mandelbrot mode sets `gMandelbrot = false`,
`gZoom = 0.8`, centre `(0, 0)`, `gMaxIterations = 300`; an `M` key press in
Julia mode sets `gMandelbrot = true`, `gZoom = 1.0`, centre `(0, 0)`,
`gMaxIterations = 15`; `J` in Julia mode and `M` in Mandelbrot mode change
nothing; in each case every other global, `gPause`, `gConstantReal` and
`gConstantImag` among them, is unchanged.  The same holds for a call of `Input`
whose only event is that key press, with no key held. -/
theorem mode_switch_keys (s : State) :
    handleEvent s (Event.keydown Keycode.j) =
      (if s.gMandelbrot = true then
        { s with gMandelbrot := false, gZoom := 4 / 5, gCenterX := 0, gCenterY := 0,
                 gMaxIterations := 300 }
       else s) ∧
    handleEvent s (Event.keydown Keycode.m) =
      (if s.gMandelbrot = false then
        { s with gMandelbrot := true, gZoom := 1, gCenterX := 0, gCenterY := 0,
                 gMaxIterations := 15 }
       else s) ∧
    Input [Event.keydown Keycode.j] noKeys s = handleEvent s (Event.keydown Keycode.j) ∧
    Input [Event.keydown Keycode.m] noKeys s = handleEvent s (Event.keydown Keycode.m) ∧
    (handleEvent s (Event.keydown Keycode.j)).gPause = s.gPause ∧
    (handleEvent s (Event.keydown Keycode.j)).gConstantReal = s.gConstantReal ∧
    (handleEvent s (Event.keydown Keycode.j)).gConstantImag = s.gConstantImag ∧
    (handleEvent s (Event.keydown Keycode.m)).gPause = s.gPause ∧
    (handleEvent s (Event.keydown Keycode.m)).gConstantReal = s.gConstantReal ∧
    (handleEvent s (Event.keydown Keycode.m)).gConstantImag = s.gConstantImag := by
  refine ⟨?_, ?_, input_single_event _ s, input_single_event _ s,
    handleEvent_pause s _ (by decide), (handleEvent_anim s _).1, (handleEvent_anim s _).2.1,
    handleEvent_pause s _ (by decide), (handleEvent_anim s _).1, (handleEvent_anim s _).2.1⟩
  · rcases s with ⟨lt, q, cx, cy, z, cr, ci, px, rg, mi, pa, rv, mb⟩
    cases mb <;> simp [handleEvent]
  · rcases s with ⟨lt, q, cx, cy, z, cr, ci, px, rg, mi, pa, rv, mb⟩
    cases mb <;> simp [handleEvent]

/-- C5, as stated, fails: an `R` key press changes the iteration count.  After
one zoom-in step from the initial globals `gMaxIterations` is 16 and `R` makes
it 15; in Julia mode, entered by `J`, it is 300 and `R` makes it 15. -/
theorem reset_key_keeps_iterations_counterexample :
    (Input [] ctrlOnly initGlobals).gMaxIterations = 16 ∧
    (handleEvent (Input [] ctrlOnly initGlobals) (Event.keydown Keycode.r)).gMaxIterations
      = 15 ∧
    (Input [Event.keydown Keycode.j] noKeys initGlobals).gMaxIterations = 300 ∧
    (handleEvent (Input [Event.keydown Keycode.j] noKeys initGlobals)
      (Event.keydown Keycode.r)).gMaxIterations = 15 := by
  refine ⟨?_, ?_, ?_, ?_⟩ <;> decide!

/-- C5, amended: in either fractal mode an `R` key press sets `gZoom = 1.0`,
centre `(0, 0)` and `gMaxIterations = 15`, and changes nothing else (fractal
mode, pause flag and the Julia constants are as before); so does a call of
`Input` whose only event is that key press, with no key held. -/
theorem reset_key_effect (s : State) :
    handleEvent s (Event.keydown Keycode.r) =
      { s with gZoom := 1, gCenterX := 0, gCenterY := 0, gMaxIterations := 15 } ∧
    Input [Event.keydown Keycode.r] noKeys s =
      { s with gZoom := 1, gCenterX := 0, gCenterY := 0, gMaxIterations := 15 } := by
  have h : handleEvent s (Event.keydown Keycode.r) =
      { s with gZoom := 1, gCenterX := 0, gCenterY := 0, gMaxIterations := 15 } := by
    simp [handleEvent]
  exact ⟨h, by rw [input_single_event, h]⟩

/-- C6: a `P` key press negates `gPause` exactly when the mode is Julia and
changes nothing in Mandelbrot mode, so two `P` presses restore the state.  A
frame whose pause test (`if (!gPause)`, after the frame's `Input`) sees
`gPause = true` leaves `gConstantReal`, `gConstantImag` and `gLastTime` as they
were at frame start, for every tick value, events, keys and depth read-back;
the frame returns whenever `find_ranges` does.  That is the case in particular
when `gPause` is true at frame start and no `P` press is pending. -/
theorem pause_key_and_paused_frame (s : State) (i : FrameInput) :
    handleEvent s (Event.keydown Keycode.p) =
      (if s.gMandelbrot = false then { s with gPause := !s.gPause } else s) ∧
    handleEvent (handleEvent s (Event.keydown Keycode.p)) (Event.keydown Keycode.p) = s ∧
    ((Input i.events i.keys s).gPause = true →
      (afterAnimate i s).gConstantReal = s.gConstantReal ∧
      (afterAnimate i s).gConstantImag = s.gConstantImag ∧
      (afterAnimate i s).gLastTime = s.gLastTime ∧
      (∀ r, (find_ranges i.depth).1 = some r →
        ∃ u s', frame i s = some (u, s') ∧ s'.gConstantReal = s.gConstantReal ∧
          s'.gConstantImag = s.gConstantImag ∧ s'.gLastTime = s.gLastTime)) ∧
    (s.gPause = true → (∀ e ∈ i.events, e ≠ Event.keydown Keycode.p) →
      (Input i.events i.keys s).gPause = true) := by
  refine ⟨?_, ?_, ?_, ?_⟩
  · rcases s with ⟨lt, q, cx, cy, z, cr, ci, px, rg, mi, pa, rv, mb⟩
    cases mb <;> simp [handleEvent]
  · rcases s with ⟨lt, q, cx, cy, z, cr, ci, px, rg, mi, pa, rv, mb⟩
    cases mb <;> simp [handleEvent]
  · intro hp
    have ha : afterAnimate i s = Input i.events i.keys s := by
      simp [afterAnimate, animateStep, hp]
    have hi := Input_anim i.events i.keys s
    refine ⟨by rw [ha]; exact hi.1, by rw [ha]; exact hi.2.1, by rw [ha]; exact hi.2.2, ?_⟩
    intro r hr
    rw [frame_eq]
    rcases hfr : find_ranges i.depth with ⟨o, sorted⟩
    rw [hfr] at hr
    simp only at hr
    subst hr
    refine ⟨_, _, rfl, ?_, ?_, ?_⟩ <;> simp only [ha]
    · exact hi.1
    · exact hi.2.1
    · exact hi.2.2
  · intro hp he
    rw [Input_pause _ _ _ he, hp]

/-- Witness for C6: Julia mode, paused (after `J` and `P`), a frame at tick
5000 with the left arrow held. -/
theorem pause_key_and_paused_frame_witness :
    (Input [] ⟨false, false, true, false, false, false⟩
      (Input [Event.keydown Keycode.j, Event.keydown Keycode.p] noKeys
        (InitializeProgram 1000 initGlobals))).gPause = true ∧
    (afterAnimate ⟨[], ⟨false, false, true, false, false, false⟩, 5000, [1 / 2, 1]⟩
      (Input [Event.keydown Keycode.j, Event.keydown Keycode.p] noKeys
        (InitializeProgram 1000 initGlobals))).gLastTime =
      (Input [Event.keydown Keycode.j, Event.keydown Keycode.p] noKeys
        (InitializeProgram 1000 initGlobals)).gLastTime :=
  ⟨by decide!,
    ((pause_key_and_paused_frame
      (Input [Event.keydown Keycode.j, Event.keydown Keycode.p] noKeys
        (InitializeProgram 1000 initGlobals))
      ⟨[], ⟨false, false, true, false, false, false⟩, 5000, [1 / 2, 1]⟩).2.2.1
      (by decide!)).2.2.1⟩

/-- C7: for a state within the clamping bounds, one `Input` call with only
left control held (and no command key pressed) gives
`gZoom' = max (0.975 * gZoom) 0.000005 ≤ gZoom`, one with only left shift held
gives `gZoom' = min (1.04 * gZoom) 1 ≥ gZoom`; in Mandelbrot mode
`gMaxIterations` becomes `min (gMaxIterations + 1) 500` for left control and
`max (gMaxIterations - 1) 15` for left shift, and in Julia mode it is
unchanged. -/
theorem zoom_keys (s : State) (evs : List Event) (hc : Clamped s)
    (he : ∀ e ∈ evs, e.isCommand = false) :
    (Input evs ctrlOnly s).gZoom = max (39 / 40 * s.gZoom) (1 / 200000) ∧
    (Input evs ctrlOnly s).gZoom ≤ s.gZoom ∧
    (Input evs shiftOnly s).gZoom = min (26 / 25 * s.gZoom) 1 ∧
    s.gZoom ≤ (Input evs shiftOnly s).gZoom ∧
    (Input evs ctrlOnly s).gMaxIterations =
      (if s.gMandelbrot = true then min (s.gMaxIterations + 1) 500 else s.gMaxIterations) ∧
    (Input evs shiftOnly s).gMaxIterations =
      (if s.gMandelbrot = true then max (s.gMaxIterations - 1) 15 else s.gMaxIterations) := by
  have hpe := pollEvents_noCommand evs s he
  generalize (pollEvents evs s).gQuit = q' at hpe
  rcases s with ⟨lt, q, cx, cy, z, cr, ci, px, rg, mi, pa, rv, mb⟩
  obtain ⟨h1, h2, h3, h4, h5, h6, h7, h8⟩ := hc
  simp only at h1 h2 h7 h8
  simp only [Input, hpe, applyKeys, ctrlOnly, shiftOnly, noKeys, scancodeLCtrl, scancodeLShift,
    Bool.false_eq_true, if_true, if_false]
  refine ⟨?_, ?_, ?_, ?_, ?_, ?_⟩
  · cases mb <;> simp only [Bool.false_eq_true, if_true, if_false] <;> split_ifs <;>
      simp only [not_lt] at * <;>
      first
        | (exfalso; omega)
        | (rw [max_eq_right (by linarith)])
        | (rw [max_eq_left (by linarith)]; ring)
  · cases mb <;> simp only [Bool.false_eq_true, if_true, if_false] <;> split_ifs <;>
      simp only [not_lt] at * <;> linarith
  · cases mb <;> simp only [Bool.false_eq_true, if_true, if_false] <;> split_ifs <;>
      simp only [not_lt] at * <;>
      first
        | (exfalso; omega)
        | (rw [min_eq_right (by linarith)])
        | (rw [min_eq_left (by linarith)]; ring)
  · cases mb <;> simp only [Bool.false_eq_true, if_true, if_false] <;> split_ifs <;>
      simp only [not_lt] at * <;> linarith
  · cases mb <;> simp only [Bool.false_eq_true, if_true, if_false] <;> split_ifs <;>
      simp only [not_lt] at * <;> omega
  · cases mb <;> simp only [Bool.false_eq_true, if_true, if_false] <;> split_ifs <;>
      simp only [not_lt] at * <;> omega

/-- Witness for C7: the initial globals, with the key press of the held
modifier itself pending. -/
theorem zoom_keys_witness :
    Clamped initGlobals ∧ (∀ e ∈ [Event.keydown Keycode.other], e.isCommand = false) ∧
    (Input [Event.keydown Keycode.other] ctrlOnly initGlobals).gZoom =
      max (39 / 40 * initGlobals.gZoom) (1 / 200000) ∧
    (Input [Event.keydown Keycode.other] ctrlOnly initGlobals).gMaxIterations =
      (if initGlobals.gMandelbrot = true then min (initGlobals.gMaxIterations + 1) 500
       else initGlobals.gMaxIterations) :=
  ⟨clamped_initGlobals, by simp [Event.isCommand],
    (zoom_keys initGlobals [Event.keydown Keycode.other] clamped_initGlobals
      (by simp [Event.isCommand])).1,
    (zoom_keys initGlobals [Event.keydown Keycode.other] clamped_initGlobals
      (by simp [Event.isCommand])).2.2.2.2.1⟩

/-- C10: `Animate` changes the state only when the mode is Julia and the
`Uint64` difference `SDL_GetTicks() - gLastTime` exceeds 125; it then adds 125
to `gLastTime` (a `Uint64` sum) and lowers both constants by `0.0015`, or sets
`gConstantImag = 0.45`, `gConstantReal = 0.55` once the lowered
`gConstantImag` is `≤ -0.75`.  While `gLastTime ≤ tick` the difference is the
number of ticks passed and `gLastTime` grows by exactly 125.  Every reachable
state has `-0.75 < gConstantImag ≤ 0.5` and
`gConstantReal - gConstantImag` equal to `-0.4` or `0.1`. -/
theorem animate_julia_band (tick : ℕ) (s : State) :
    (Animate tick s ≠ s →
      s.gMandelbrot = false ∧ 125 < ((tick : ℤ) - (s.gLastTime : ℤ)) % 2 ^ 64) ∧
    (s.gMandelbrot = false ∧ 125 < ((tick : ℤ) - (s.gLastTime : ℤ)) % 2 ^ 64 →
      Animate tick s =
        { s with
          gLastTime := (s.gLastTime + 125) % 2 ^ 64
          gConstantImag :=
            if s.gConstantImag - 3 / 2000 ≤ -(3 / 4) then 9 / 20 else s.gConstantImag - 3 / 2000
          gConstantReal :=
            if s.gConstantImag - 3 / 2000 ≤ -(3 / 4) then 11 / 20
            else s.gConstantReal - 3 / 2000 }) ∧
    (s.gLastTime ≤ tick → tick < 2 ^ 64 →
      (((tick : ℤ) - (s.gLastTime : ℤ)) % 2 ^ 64 = ((tick - s.gLastTime : ℕ) : ℤ)) ∧
      (Animate tick s ≠ s → s.gMandelbrot = false ∧ 125 < tick - s.gLastTime) ∧
      (s.gMandelbrot = false → 125 < tick - s.gLastTime →
        (Animate tick s).gLastTime = s.gLastTime + 125)) ∧
    (Reachable s →
      -(3 / 4) < s.gConstantImag ∧ s.gConstantImag ≤ 1 / 2 ∧
      (s.gConstantReal - s.gConstantImag = -(2 / 5) ∨
        s.gConstantReal - s.gConstantImag = 1 / 10)) := by
  have key : Animate tick s ≠ s →
      s.gMandelbrot = false ∧ 125 < ((tick : ℤ) - (s.gLastTime : ℤ)) % 2 ^ 64 := by
    intro hne
    by_contra hc
    exact hne (Animate_idle tick s hc)
  refine ⟨key, Animate_fire tick s, ?_, juliaBand_reachable s⟩
  intro hle hlt
  have hmod : ((tick : ℤ) - (s.gLastTime : ℤ)) % 2 ^ 64 = ((tick - s.gLastTime : ℕ) : ℤ) := by
    omega
  refine ⟨hmod, ?_, ?_⟩
  · intro hne
    have := key hne
    rw [hmod] at this
    exact ⟨this.1, by exact_mod_cast this.2⟩
  · intro hm hgt
    rw [Animate_fire tick s ⟨hm, by rw [hmod]; exact_mod_cast hgt⟩]
    simp only
    omega

/-- Witness for C10: Julia mode entered at tick 1000, `Animate` at tick 1200. -/
theorem animate_julia_band_witness :
    Reachable (Input [Event.keydown Keycode.j] noKeys (InitializeProgram 1000 initGlobals)) ∧
    (Animate 1200
      (Input [Event.keydown Keycode.j] noKeys
        (InitializeProgram 1000 initGlobals))).gLastTime = 1125 ∧
    -(3 / 4) <
      (Input [Event.keydown Keycode.j] noKeys
        (InitializeProgram 1000 initGlobals)).gConstantImag :=
  ⟨Reachable.input _ _ (Reachable.boot 1000 Reachable.init),
    ((animate_julia_band 1200
      (Input [Event.keydown Keycode.j] noKeys (InitializeProgram 1000 initGlobals))).2.2.1
      (by decide!) (by decide!)).2.2 (by decide!) (by decide!),
    ((animate_julia_band 1200
      (Input [Event.keydown Keycode.j] noKeys (InitializeProgram 1000 initGlobals))).2.2.2
      (Reachable.input _ _ (Reachable.boot 1000 Reachable.init))).1⟩

end Mandelbrot
